import Mathlib

/-!
Shallow embedding of the poker-tournament-manager core (src/src/App.jsx and
src/src/TVScreenPublic.jsx): the clock state machine, the player ledger,
the financial engine (prize pool) and the ranking engine, together with the
tournament-store operations.  Machine numbers are modelled as `Int` where the
source only ever holds integers (timer seconds, level indices, counters) and
as `Rat` for monetary amounts; ranking scores are real (the source applies
`Math.pow(_, 0.5)`, i.e. a square root).
-/

namespace PokerTM

/-- One row of the blind schedule (App.jsx `defaultBlindStructure` entries and
the objects built by `BlindsManager.addBlindLevel` / `addBreak`). -/
structure BlindLevel where
  level : Int
  smallBlind : Int
  bigBlind : Int
  ante : Int
  isBreak : Bool := false
  breakDuration : Int := 10
deriving DecidableEq

/-- A player record as created by `AdminPanel.addPlayer` (App.jsx lines 454-466).
`actions` is the entry counter (buy-in plus rebuys). -/
structure Player where
  id : Int
  name : String
  actions : Int
  rebuys : Int
  addons : Int
  chips : Rat
  position : Option Int
  prize : Rat
  active : Bool
  hasTimeChip : Bool
  hasExtraChip : Bool
deriving DecidableEq

/-- A tournament record as created by `TournamentsProvider.createTournament`
(App.jsx lines 61-87). -/
structure Tournament where
  id : String
  name : String
  players : List Player
  blinds : List BlindLevel
  levelDuration : Int
  currentLevelIndex : Int
  timeLeft : Int
  isRunning : Bool
  stageWeight : Rat
  buyInValue : Rat
  buyInChips : Rat
  rebuyValue : Rat
  rebuyChips : Rat
  addonValue : Rat
  addonChips : Rat
  adminFeePercent : Rat
  timeChipEnabled : Bool
  timeChipValue : Rat
  extraChipEnabled : Bool
  extraChipValue : Rat
  extraChipAmount : Rat
deriving DecidableEq

/-- App.jsx line 30: `clamp = (v, a, b) => Math.max(a, Math.min(b, v))`. -/
def clamp (v a b : Int) : Int := max a (min b v)

/-- App.jsx line 20: the default blind structure used at tournament creation. -/
def defaultBlindStructure : List BlindLevel :=
  [ { level := 1, smallBlind := 25, bigBlind := 50, ante := 0 },
    { level := 2, smallBlind := 50, bigBlind := 100, ante := 0 },
    { level := 3, smallBlind := 75, bigBlind := 150, ante := 25, isBreak := true,
      breakDuration := 10 },
    { level := 4, smallBlind := 100, bigBlind := 200, ante := 25 },
    { level := 5, smallBlind := 150, bigBlind := 300, ante := 50 } ]

/-- App.jsx lines 61-87, `TournamentsProvider.createTournament` (the generated
`uid` and the chosen name are parameters here). -/
def createTournament (id name : String) : Tournament :=
  { id := id
    name := name
    players := []
    blinds := defaultBlindStructure
    levelDuration := 10
    currentLevelIndex := 0
    timeLeft := 10 * 60
    isRunning := false
    stageWeight := 1
    buyInValue := 100
    buyInChips := 10000
    rebuyValue := 100
    rebuyChips := 10000
    addonValue := 50
    addonChips := 5000
    adminFeePercent := 10
    timeChipEnabled := false
    timeChipValue := 2000
    extraChipEnabled := false
    extraChipValue := 20
    extraChipAmount := 2000 }

/-- TVScreen timer effect, App.jsx lines 157-174, as a single step of the
one-second scheduler: while Running with `timeLeft > 0` the interval fires and
decrements `timeLeft`; while Running with `timeLeft == 0` the effect advances
the level (`clamp(currentLevelIndex+1, 0, blinds.length-1)`), resets the clock
to `levelDuration * 60` seconds, and stops the clock when the new index is the
last one; otherwise nothing happens. -/
def tickStep (t : Tournament) : Tournament :=
  if t.isRunning = true ∧ 0 < t.timeLeft then
    { t with timeLeft := t.timeLeft - 1 }
  else if t.isRunning = true ∧ t.timeLeft = 0 then
    let next := clamp (t.currentLevelIndex + 1) 0 ((t.blinds.length : Int) - 1)
    { t with
      currentLevelIndex := next
      timeLeft := t.levelDuration * 60
      isRunning := if next = (t.blinds.length : Int) - 1 then false else t.isRunning }
  else t

/-- Iniciar/Pausar button, App.jsx line 268: flip `isRunning`. -/
def toggleRun (t : Tournament) : Tournament :=
  { t with isRunning := !t.isRunning }

/-- Reiniciar button, App.jsx line 276. -/
def resetClock (t : Tournament) : Tournament :=
  { t with isRunning := false, currentLevelIndex := 0, timeLeft := t.levelDuration * 60 }

/-- Previous/next level buttons, App.jsx lines 282-300 (delta is `-1` or `1`
in the source; the clamp is the same for any delta). -/
def jumpLevel (t : Tournament) (delta : Int) : Tournament :=
  { t with
    currentLevelIndex := clamp (t.currentLevelIndex + delta) 0 ((t.blinds.length : Int) - 1)
    timeLeft := t.levelDuration * 60 }

/-- JavaScript `String.prototype.trim`: strip leading and trailing
whitespace. -/
def jsTrim (s : String) : String :=
  ⟨((s.data.dropWhile Char.isWhitespace).reverse.dropWhile Char.isWhitespace).reverse⟩

/-- The player literal built by `AdminPanel.addPlayer`, App.jsx lines 450-466
(`Date.now()` is the `pid` parameter here). -/
def mkPlayer (t : Tournament) (pid : Int) (name : String) : Player :=
  let isTimeChipEligible := t.timeChipEnabled && decide (t.currentLevelIndex < 2)
  { id := pid
    name := jsTrim name
    actions := 1
    rebuys := 0
    addons := 0
    chips := t.buyInChips + (if isTimeChipEligible then t.timeChipValue else 0)
    position := none
    prize := 0
    active := true
    hasTimeChip := isTimeChipEligible
    hasExtraChip := false }

/-- Function `AdminPanel.addPlayer`, App.jsx lines 447-469: rejected outright when the
trimmed name is empty, otherwise the new player is appended. -/
def addPlayer (t : Tournament) (pid : Int) (name : String) : Tournament :=
  if jsTrim name = "" then t
  else { t with players := t.players ++ [mkPlayer t pid name] }

/-- Function `AdminPanel.updatePlayer`, App.jsx lines 471-473: patch the player whose id
matches. -/
def updatePlayerBy (ps : List Player) (pid : Int) (f : Player → Player) : List Player :=
  ps.map fun p => if p.id = pid then f p else p

/-- The +Rebuy button patch, App.jsx lines 659-668. -/
def rebuyPatch (t : Tournament) (p : Player) : Player :=
  { p with rebuys := p.rebuys + 1, actions := p.actions + 1, chips := p.chips + t.rebuyChips }

/-- The +Addon button patch, App.jsx lines 669-677. -/
def addonPatch (t : Tournament) (p : Player) : Player :=
  { p with addons := p.addons + 1, chips := p.chips + t.addonChips }

/-- The +Extra Chip button patch, App.jsx lines 647-657. -/
def extraChipPatch (t : Tournament) (p : Player) : Player :=
  { p with hasExtraChip := true, chips := p.chips + t.extraChipAmount }

/-- Count of players whose `active` flag is set,
`tournament.players.filter(x => x.active).length`. -/
def countActive (ps : List Player) : Nat :=
  (ps.filter fun p => p.active).length

/-- The Eliminar button patch, App.jsx lines 678-686: `n` is the count of
active players computed before the patch is applied. -/
def eliminatePatch (n : Nat) (p : Player) : Player :=
  { p with active := false, position := some (n : Int) }

/-- Eliminar applied at the tournament level, App.jsx lines 678-686: the active
count is taken over the whole roster before the player is marked inactive. -/
def eliminatePlayer (t : Tournament) (pid : Int) : Tournament :=
  { t with players := updatePlayerBy t.players pid (eliminatePatch (countActive t.players)) }

/-- Rebuy at the tournament level. -/
def rebuyPlayer (t : Tournament) (pid : Int) : Tournament :=
  { t with players := updatePlayerBy t.players pid (rebuyPatch t) }

/-- Addon at the tournament level. -/
def addonPlayer (t : Tournament) (pid : Int) : Tournament :=
  { t with players := updatePlayerBy t.players pid (addonPatch t) }

/-- Extra Chip purchase at the tournament level; the button is only rendered when the
extra chip is enabled and the player has not yet purchased one (App.jsx
line 647). -/
def purchaseExtraChip (t : Tournament) (pid : Int) : Tournament :=
  { t with players := t.players.map fun p =>
      if p.id = pid ∧ t.extraChipEnabled = true ∧ p.hasExtraChip = false
      then extraChipPatch t p else p }

/-- Function `AdminPanel.removePlayer`, App.jsx lines 475-477. -/
def removePlayerById (t : Tournament) (pid : Int) : Tournament :=
  { t with players := t.players.filter fun p => p.id ≠ pid }

/-- The chips input field, App.jsx lines 640-646: set a player's stack. -/
def setChips (t : Tournament) (pid : Int) (c : Rat) : Tournament :=
  { t with players := updatePlayerBy t.players pid fun p => { p with chips := c } }

/-- Function `BlindsManager.addBlindLevel`, App.jsx lines 705-715; the `x || d` JS
fallbacks fire when the last level's field is 0 (or the list is empty). -/
def addBlindLevel (t : Tournament) : Tournament :=
  let newLevel : BlindLevel :=
    { level := (match t.blinds.getLast? with
        | none => 0
        | some b => b.level) + 1
      smallBlind := (match t.blinds.getLast? with
        | none => 25
        | some b => if b.smallBlind = 0 then 25 else b.smallBlind) * 2
      bigBlind := (match t.blinds.getLast? with
        | none => 50
        | some b => if b.bigBlind = 0 then 50 else b.bigBlind) * 2
      ante := (match t.blinds.getLast? with
        | none => 0
        | some b => b.ante)
      isBreak := false }
  { t with blinds := t.blinds ++ [newLevel] }

/-- Function `BlindsManager.addBreak`, App.jsx lines 717-728. -/
def addBreak (t : Tournament) : Tournament :=
  let newBreak : BlindLevel :=
    { level := (match t.blinds.getLast? with
        | none => 0
        | some b => b.level) + 1
      smallBlind := 0
      bigBlind := 0
      ante := 0
      isBreak := true
      breakDuration := 10 }
  { t with blinds := t.blinds ++ [newBreak] }

/-- Function `BlindsManager.updateBlind`, App.jsx lines 730-733: in-place patch of the
level at index `i` (the UI patches individual numeric fields; `f` is the
merge). -/
def updateBlind (t : Tournament) (i : Nat) (f : BlindLevel → BlindLevel) : Tournament :=
  { t with blinds := t.blinds.mapIdx fun j b => if j = i then f b else b }

/-- Function `BlindsManager.removeBlind`, App.jsx lines 735-737:
`blinds.filter((_, i) => i !== index)`. -/
def removeBlind (t : Tournament) (i : Nat) : Tournament :=
  { t with blinds := t.blinds.eraseIdx i }

/-- Per-player net contribution, the summand of `totalPrizePool` in App.jsx
lines 190-197 and TVScreenPublic.jsx lines 27-34:
`(actions*buyInValue + addons*addonValue + extraChip) * (1 - adminFeePercent/100)`. -/
def netContribution (t : Tournament) (p : Player) : Rat :=
  ((p.actions : Rat) * t.buyInValue + (p.addons : Rat) * t.addonValue
      + (if p.hasExtraChip then t.extraChipValue else 0))
    * (1 - t.adminFeePercent / 100)

/-- Function `totalPrizePool`, App.jsx lines 190-197 (identical code in
TVScreenPublic.jsx lines 27-34): a reduce over all players, active and
eliminated alike. -/
def totalPrizePool (t : Tournament) : Rat :=
  t.players.foldl
    (fun s p =>
      s + ((p.actions : Rat) * t.buyInValue + (p.addons : Rat) * t.addonValue
            + (if p.hasExtraChip then t.extraChipValue else 0))
          * (1 - t.adminFeePercent / 100))
    0

/-- Function `calculateRanking`, App.jsx lines 106-110:
`Math.pow(((actions / position) * 100), 0.5) * stageWeight`, with a 0 guard
for non-positive `position` or `actions`.  `Math.pow(x, 0.5)` is real
exponentiation, modelled by `Real.rpow`. -/
noncomputable def calculateRanking (actions position : Int) (stageWeight : Rat) : ℝ :=
  if position ≤ 0 ∨ actions ≤ 0 then 0
  else (((actions : ℝ) / (position : ℝ)) * 100) ^ (0.5 : ℝ) * (stageWeight : ℝ)

/-- One entry of `RankingViewer.withScores`: the player spread together with
the computed score and the effective position. -/
structure ScoredPlayer where
  player : Player
  score : ℝ
  finalPosition : Int

/-- Function `RankingViewer.withScores`, App.jsx lines 836-840: score every player
(the effective position is the recorded `position` when set, otherwise the
total player count — the source ternary `p.active ? length : length` yields
the length in both branches) and sort by descending score.  The JS
`sort((a,b) => b.score - a.score)` is a stable sort placing `a` before `b`
exactly when `b.score ≤ a.score`. -/
noncomputable def withScoresPre (t : Tournament) : List ScoredPlayer :=
  t.players.map fun p =>
    let position : Int := p.position.getD (t.players.length : Int)
    { player := p
      score := calculateRanking p.actions position t.stageWeight
      finalPosition := position }

/-- The sorted ranking list of `RankingViewer`. -/
noncomputable def withScores (t : Tournament) : List ScoredPlayer :=
  (withScoresPre t).mergeSort fun a b => decide (b.score ≤ a.score)

/-- The tournament-store state held by `TournamentsProvider`. -/
structure TournamentsState where
  tournaments : List Tournament
  activeTournamentId : Option String
deriving DecidableEq

/-- Function `TournamentsProvider.removeTournament`, App.jsx lines 93-96.  The filter
removes the tournament; the active-id updater compares against the id and, on
a match, falls back to `tournaments[0]?.id ?? null` where `tournaments` is the
PRE-removal list captured by the closure. -/
def removeTournament (st : TournamentsState) (i : String) : TournamentsState :=
  { tournaments := st.tournaments.filter fun t => t.id ≠ i
    activeTournamentId :=
      if st.activeTournamentId = some i then st.tournaments.head?.map Tournament.id
      else st.activeTournamentId }

/-- The core operations reachable from the UI that the reachability claims
quantify over: clock ticks, start/pause, reset, level jumps, player-ledger
mutations, and blind-schedule edits. -/
inductive Op where
  | tick : Op
  | toggle : Op
  | reset : Op
  | jump (delta : Int) : Op
  | enroll (pid : Int) (name : String) : Op
  | rebuy (pid : Int) : Op
  | addon (pid : Int) : Op
  | extraChip (pid : Int) : Op
  | eliminate (pid : Int) : Op
  | removeP (pid : Int) : Op
  | chips (pid : Int) (c : Rat) : Op
  | addLevel : Op
  | addBreakLevel : Op
  | editBlind (i : Nat) (f : BlindLevel → BlindLevel) : Op
  | dropBlind (i : Nat) : Op

/-- Interpretation of one operation by the source handlers. -/
def applyOp (t : Tournament) : Op → Tournament
  | .tick => tickStep t
  | .toggle => toggleRun t
  | .reset => resetClock t
  | .jump d => jumpLevel t d
  | .enroll pid name => addPlayer t pid name
  | .rebuy pid => rebuyPlayer t pid
  | .addon pid => addonPlayer t pid
  | .extraChip pid => purchaseExtraChip t pid
  | .eliminate pid => eliminatePlayer t pid
  | .removeP pid => removePlayerById t pid
  | .chips pid c => setChips t pid c
  | .addLevel => addBlindLevel t
  | .addBreakLevel => addBreak t
  | .editBlind i f => updateBlind t i f
  | .dropBlind i => removeBlind t i

/-- Run a sequence of operations. -/
def applyOps (t : Tournament) (ops : List Op) : Tournament :=
  ops.foldl applyOp t

/-- Whether an operation removes a blind level from the schedule. -/
def Op.dropsBlind : Op → Bool
  | .dropBlind _ => true
  | _ => false

/-- The clock-state invariant of the specification: the current level index is
a valid index of a nonempty schedule, the clock is nonnegative, and the level
duration is nonnegative. -/
def ClockInv (t : Tournament) : Prop :=
  1 ≤ t.blinds.length ∧ 0 ≤ t.currentLevelIndex ∧
    t.currentLevelIndex < (t.blinds.length : Int) ∧ 0 ≤ t.timeLeft ∧ 0 ≤ t.levelDuration

/-- The weaker clock facts that survive even blind-level removal. -/
def WeakClockInv (t : Tournament) : Prop :=
  0 ≤ t.currentLevelIndex ∧ 0 ≤ t.timeLeft ∧ 0 ≤ t.levelDuration

/-- Ledger operations applied to a single player record. -/
inductive LedgerOp where
  | rebuyL : LedgerOp
  | addonL : LedgerOp
  | extraChipL : LedgerOp
  | eliminateL (n : Nat) : LedgerOp

/-- Interpretation of a single-player ledger operation. -/
def applyLedger (t : Tournament) (p : Player) : LedgerOp → Player
  | .rebuyL => rebuyPatch t p
  | .addonL => addonPatch t p
  | .extraChipL => extraChipPatch t p
  | .eliminateL n => eliminatePatch n p

/-- Run a sequence of ledger operations on one player. -/
def applyLedgers (t : Tournament) (p : Player) (ops : List LedgerOp) : Player :=
  ops.foldl (applyLedger t) p

/-! ### Helper lemmas -/

lemma foldl_add_map_sum {α : Type} (f : α → Rat) (ps : List α) (init : Rat) :
    ps.foldl (fun s p => s + f p) init = init + (ps.map f).sum := by
  induction ps generalizing init with
  | nil => simp
  | cons p ps ih => simp [ih, add_assoc]

lemma totalPrizePool_eq_sum (t : Tournament) :
    totalPrizePool t = (t.players.map (netContribution t)).sum := by
  have h : totalPrizePool t = t.players.foldl (fun s p => s + netContribution t p) 0 := rfl
  rw [h, foldl_add_map_sum]
  simp

lemma tickStep_run_pos {t : Tournament} (hrun : t.isRunning = true) (hpos : 0 < t.timeLeft) :
    tickStep t = { t with timeLeft := t.timeLeft - 1 } := by
  unfold tickStep
  rw [if_pos ⟨hrun, hpos⟩]

lemma tickStep_run_zero {t : Tournament} (hrun : t.isRunning = true) (hz : t.timeLeft = 0) :
    tickStep t =
      { t with
        currentLevelIndex := clamp (t.currentLevelIndex + 1) 0 ((t.blinds.length : Int) - 1)
        timeLeft := t.levelDuration * 60
        isRunning :=
          if clamp (t.currentLevelIndex + 1) 0 ((t.blinds.length : Int) - 1)
              = (t.blinds.length : Int) - 1 then false else t.isRunning } := by
  unfold tickStep
  rw [if_neg (by simp [hz]), if_pos ⟨hrun, hz⟩]

lemma countActive_cons (q : Player) (l : List Player) :
    countActive (q :: l) = (if q.active then 1 else 0) + countActive l := by
  by_cases h : q.active <;> simp [countActive, List.filter_cons, h, Nat.add_comm]

lemma countActive_pos {ps : List Player} {p : Player} (hp : p ∈ ps) (ha : p.active = true) :
    1 ≤ countActive ps := by
  have hmem : p ∈ ps.filter fun q => q.active := List.mem_filter.mpr ⟨hp, by simp [ha]⟩
  have := List.length_pos.mpr (List.ne_nil_of_mem hmem)
  exact this

lemma updatePlayerBy_of_absent (ps : List Player) (pid : Int) (f : Player → Player)
    (h : ∀ q ∈ ps, q.id ≠ pid) : updatePlayerBy ps pid f = ps := by
  induction ps with
  | nil => rfl
  | cons q l ih =>
    have ihl := ih fun r hr => h r (List.mem_cons.mpr (Or.inr hr))
    simp only [updatePlayerBy, List.map_cons] at *
    rw [if_neg (h q (List.mem_cons_self q l)), ihl]

/-! ### C1: the tick transition -/

/-- C1: from a Running state with time remaining, a tick only decrements
`timeLeft`; from a Running state with `timeLeft = 0`, the next tick advances
`currentLevelIndex` to `min(currentLevelIndex+1, blinds.length-1)`, resets
`timeLeft` to `levelDuration*60`, and sets `isRunning` to false exactly when
the new index is the last index of the schedule. -/
theorem tick_spec (t : Tournament) (hrun : t.isRunning = true) :
    (0 < t.timeLeft → tickStep t = { t with timeLeft := t.timeLeft - 1 }) ∧
    (t.timeLeft = 0 → 1 ≤ t.blinds.length → 0 ≤ t.currentLevelIndex →
      tickStep t =
        { t with
          currentLevelIndex := min (t.currentLevelIndex + 1) ((t.blinds.length : Int) - 1)
          timeLeft := t.levelDuration * 60
          isRunning :=
            if min (t.currentLevelIndex + 1) ((t.blinds.length : Int) - 1)
                = (t.blinds.length : Int) - 1 then false else t.isRunning } ∧
      ((tickStep t).isRunning = false ↔
        min (t.currentLevelIndex + 1) ((t.blinds.length : Int) - 1)
          = (t.blinds.length : Int) - 1)) := by
  constructor
  · intro hpos
    exact tickStep_run_pos hrun hpos
  · intro hz hlen hidx
    have hL : (1 : Int) ≤ (t.blinds.length : Int) := by exact_mod_cast hlen
    have hclamp : clamp (t.currentLevelIndex + 1) 0 ((t.blinds.length : Int) - 1)
        = min (t.currentLevelIndex + 1) ((t.blinds.length : Int) - 1) := by
      unfold clamp
      omega
    have hstep := tickStep_run_zero hrun hz
    rw [hclamp] at hstep
    refine ⟨hstep, ?_⟩
    rw [hstep]
    by_cases hmin : min (t.currentLevelIndex + 1) ((t.blinds.length : Int) - 1)
        = (t.blinds.length : Int) - 1
    · simp [hmin]
    · simp [hmin, hrun]

def sampleRunning : Tournament :=
  { createTournament "tr_1" "Sample" with isRunning := true }

def sampleExpiring : Tournament :=
  { sampleRunning with timeLeft := 0 }

/-- Witness for C1 at two concrete Running states. -/
theorem tick_spec_witness :
    (0 < sampleRunning.timeLeft ∧
      tickStep sampleRunning = { sampleRunning with timeLeft := sampleRunning.timeLeft - 1 }) ∧
    (sampleExpiring.timeLeft = 0 ∧ 1 ≤ sampleExpiring.blinds.length ∧
      0 ≤ sampleExpiring.currentLevelIndex ∧
      tickStep sampleExpiring =
        { sampleExpiring with
          currentLevelIndex :=
            min (sampleExpiring.currentLevelIndex + 1) ((sampleExpiring.blinds.length : Int) - 1)
          timeLeft := sampleExpiring.levelDuration * 60
          isRunning :=
            if min (sampleExpiring.currentLevelIndex + 1)
                  ((sampleExpiring.blinds.length : Int) - 1)
                = (sampleExpiring.blinds.length : Int) - 1 then false
            else sampleExpiring.isRunning }) :=
  ⟨⟨by decide, (tick_spec sampleRunning rfl).1 (by decide)⟩,
   by decide, by decide, by decide,
   ((tick_spec sampleExpiring rfl).2 (by decide) (by decide) (by decide)).1⟩

/-! ### C3: the prize pool -/

def c3Player : Player :=
  { id := 1, name := "P", actions := 2, rebuys := 1, addons := 1, chips := 0,
    position := none, prize := 0, active := true, hasTimeChip := false, hasExtraChip := false }

def c3Tournament : Tournament :=
  { createTournament "tr_c3" "C3" with players := [c3Player] }

/-- C3: the total prize pool is the sum over all players, active and
eliminated alike, of
`(entries*buyInValue + addons*addonValue + extraChip) * (1 - adminFeePercent/100)`;
with `buyInValue=100`, `adminFeePercent=10`, `addonValue=50` and one player
with 2 entries and 1 addon the pool is 225. -/
theorem prizePool_spec :
    (∀ t : Tournament, totalPrizePool t = (t.players.map (netContribution t)).sum) ∧
    totalPrizePool c3Tournament = 225 := by
  refine ⟨totalPrizePool_eq_sum, ?_⟩
  norm_num [totalPrizePool, c3Tournament, c3Player, createTournament]

/-! ### C6: admitting a player -/

/-- C6: the operation `addPlayer` is rejected, leaving the tournament unchanged, exactly
when the trimmed name is empty; otherwise it appends a player with
`entries=1, rebuys=0, addons=0, active=true, position=null, prize=0` and
`chips = buyInChips` plus the bonus entry chips exactly when the bonus is
enabled and the current level index is below 2, the bonus flag being set
accordingly. -/
theorem addPlayer_spec (t : Tournament) (pid : Int) (name : String) :
    (jsTrim name = "" → addPlayer t pid name = t) ∧
    (jsTrim name ≠ "" →
      addPlayer t pid name = { t with players := t.players ++ [mkPlayer t pid name] }) ∧
    (mkPlayer t pid name).actions = 1 ∧
    (mkPlayer t pid name).rebuys = 0 ∧
    (mkPlayer t pid name).addons = 0 ∧
    (mkPlayer t pid name).active = true ∧
    (mkPlayer t pid name).position = none ∧
    (mkPlayer t pid name).prize = 0 ∧
    (mkPlayer t pid name).chips =
      t.buyInChips + (if t.timeChipEnabled = true ∧ t.currentLevelIndex < 2
        then t.timeChipValue else 0) ∧
    ((mkPlayer t pid name).hasTimeChip = true ↔
      (t.timeChipEnabled = true ∧ t.currentLevelIndex < 2)) := by
  refine ⟨fun h => by simp [addPlayer, h], fun h => by simp [addPlayer, h],
    rfl, rfl, rfl, rfl, rfl, rfl, ?_, ?_⟩
  · by_cases h₁ : t.timeChipEnabled = true <;> by_cases h₂ : t.currentLevelIndex < 2 <;>
      simp [mkPlayer, h₁, h₂]
  · by_cases h₁ : t.timeChipEnabled = true <;> by_cases h₂ : t.currentLevelIndex < 2 <;>
      simp [mkPlayer, h₁, h₂]

/-- Witness for C6: a whitespace-only name is rejected without any change,
and a real name is appended. -/
theorem addPlayer_spec_witness :
    (jsTrim "  " = "" ∧ addPlayer (createTournament "tr_w" "W") 1 "  " =
      createTournament "tr_w" "W") ∧
    (jsTrim "Ana" ≠ "" ∧ addPlayer (createTournament "tr_w" "W") 1 "Ana" =
      { createTournament "tr_w" "W" with
        players := (createTournament "tr_w" "W").players
          ++ [mkPlayer (createTournament "tr_w" "W") 1 "Ana"] }) :=
  ⟨⟨by decide, (addPlayer_spec (createTournament "tr_w" "W") 1 "  ").1 (by decide)⟩,
   ⟨by decide, ((addPlayer_spec (createTournament "tr_w" "W") 1 "Ana").2).1 (by decide)⟩⟩

/-! ### C7: the entries invariant -/

lemma applyLedgers_entries (t : Tournament) (ops : List LedgerOp) :
    ∀ p : Player, p.actions = 1 + p.rebuys →
      (applyLedgers t p ops).actions = 1 + (applyLedgers t p ops).rebuys := by
  induction ops with
  | nil => intro p h; exact h
  | cons op ops ih =>
    intro p h
    have hstep : (applyLedger t p op).actions = 1 + (applyLedger t p op).rebuys := by
      cases op <;>
        simp only [applyLedger, rebuyPatch, addonPatch, extraChipPatch, eliminatePatch] <;>
        omega
    have : applyLedgers t p (op :: ops) = applyLedgers t (applyLedger t p op) ops := rfl
    rw [this]
    exact ih _ hstep

/-- C7: a player admitted by `addPlayer` satisfies `entries = 1 + rebuys`,
`rebuy` increments both counters by 1 (adding `rebuyChips` to the stack),
no other ledger operation touches either counter, and the equality is
preserved by every sequence of ledger operations. -/
theorem entries_invariant (t : Tournament) (pid : Int) (name : String)
    (ops : List LedgerOp) :
    (mkPlayer t pid name).actions = 1 ∧
    (mkPlayer t pid name).rebuys = 0 ∧
    (∀ p : Player, (rebuyPatch t p).actions = p.actions + 1 ∧
      (rebuyPatch t p).rebuys = p.rebuys + 1 ∧
      (rebuyPatch t p).chips = p.chips + t.rebuyChips) ∧
    (∀ p : Player, (addonPatch t p).actions = p.actions ∧
      (addonPatch t p).rebuys = p.rebuys) ∧
    (∀ p : Player, (extraChipPatch t p).actions = p.actions ∧
      (extraChipPatch t p).rebuys = p.rebuys) ∧
    (∀ (n : Nat) (p : Player), (eliminatePatch n p).actions = p.actions ∧
      (eliminatePatch n p).rebuys = p.rebuys) ∧
    (applyLedgers t (mkPlayer t pid name) ops).actions
      = 1 + (applyLedgers t (mkPlayer t pid name) ops).rebuys :=
  ⟨rfl, rfl, fun _ => ⟨rfl, rfl, rfl⟩, fun _ => ⟨rfl, rfl⟩, fun _ => ⟨rfl, rfl⟩,
   fun _ _ => ⟨rfl, rfl⟩, applyLedgers_entries t ops _ rfl⟩

/-! ### C5: elimination positions -/

lemma countActive_eliminate (pid : Int) (n : Nat) :
    ∀ ps : List Player, (ps.map Player.id).Nodup →
      (∃ p ∈ ps, p.id = pid ∧ p.active = true) →
      countActive (updatePlayerBy ps pid (eliminatePatch n)) = countActive ps - 1 := by
  intro ps
  induction ps with
  | nil =>
    intro _ h
    exact absurd h (by simp)
  | cons q l ih =>
    intro hnodup hex
    have hnd := hnodup
    simp only [List.map_cons, List.nodup_cons] at hnd
    by_cases hq : q.id = pid
    · have hqa : q.active = true := by
        obtain ⟨p, hp, hpid, hpa⟩ := hex
        rcases List.mem_cons.mp hp with rfl | hpl
        · exact hpa
        · exact absurd (hq ▸ hpid ▸ List.mem_map_of_mem Player.id hpl) hnd.1
      have htail : updatePlayerBy l pid (eliminatePatch n) = l := by
        apply updatePlayerBy_of_absent
        intro r hr hrid
        exact hnd.1 (hq ▸ hrid ▸ List.mem_map_of_mem Player.id hr)
      have hmap : updatePlayerBy (q :: l) pid (eliminatePatch n)
          = eliminatePatch n q :: l := by
        simp only [updatePlayerBy, List.map_cons, if_pos hq]
        have := htail
        simp only [updatePlayerBy] at this
        rw [this]
      rw [hmap, countActive_cons, countActive_cons]
      have helim : (eliminatePatch n q).active = false := rfl
      simp [helim, hqa]
    · have hex' : ∃ p ∈ l, p.id = pid ∧ p.active = true := by
        obtain ⟨p, hp, hpid, hpa⟩ := hex
        rcases List.mem_cons.mp hp with rfl | hpl
        · exact absurd hpid hq
        · exact ⟨p, hpl, hpid, hpa⟩
      have hcnt := ih hnd.2 hex'
      have hpos : 1 ≤ countActive l := by
        obtain ⟨p, hp, _, hpa⟩ := hex'
        exact countActive_pos hp hpa
      have hmap : updatePlayerBy (q :: l) pid (eliminatePatch n)
          = q :: updatePlayerBy l pid (eliminatePatch n) := by
        simp only [updatePlayerBy, List.map_cons, if_neg hq]
      rw [hmap, countActive_cons, countActive_cons, hcnt]
      by_cases hqa : q.active
      · simp only [hqa, if_true]
        omega
      · simp only [hqa, if_false]
        omega

def c5Roster : List Player :=
  [ { id := 1, name := "A", actions := 1, rebuys := 0, addons := 0, chips := 0,
      position := none, prize := 0, active := true, hasTimeChip := false, hasExtraChip := false },
    { id := 2, name := "B", actions := 1, rebuys := 0, addons := 0, chips := 0,
      position := none, prize := 0, active := true, hasTimeChip := false, hasExtraChip := false },
    { id := 3, name := "C", actions := 1, rebuys := 0, addons := 0, chips := 0,
      position := none, prize := 0, active := true, hasTimeChip := false, hasExtraChip := false },
    { id := 4, name := "D", actions := 1, rebuys := 0, addons := 0, chips := 0,
      position := none, prize := 0, active := true, hasTimeChip := false, hasExtraChip := false } ]

def c5Tournament : Tournament :=
  { createTournament "tr_c5" "C5" with players := c5Roster }

/-- C5: eliminating an active player marks exactly that player inactive and
records as their position the count of active players taken before the
player is removed from the active field (so the count includes them), every
other player is untouched, and the active count drops by exactly one — hence
in a field of 4 the first two eliminations record positions 4 and 3. -/
theorem eliminate_spec (t : Tournament) (pid : Int)
    (hmem : ∃ p ∈ t.players, p.id = pid ∧ p.active = true)
    (hnodup : (t.players.map Player.id).Nodup) :
    1 ≤ countActive t.players ∧
    (eliminatePlayer t pid).players = t.players.map (fun p =>
      if p.id = pid then
        { p with active := false, position := some ((countActive t.players : Nat) : Int) }
      else p) ∧
    countActive (eliminatePlayer t pid).players = countActive t.players - 1 ∧
    (∃ q ∈ (eliminatePlayer (eliminatePlayer c5Tournament 1) 2).players,
      q.id = 1 ∧ q.position = some 4 ∧ q.active = false) ∧
    (∃ q ∈ (eliminatePlayer (eliminatePlayer c5Tournament 1) 2).players,
      q.id = 2 ∧ q.position = some 3 ∧ q.active = false) := by
  obtain ⟨p, hp, hpid, hpa⟩ := hmem
  refine ⟨countActive_pos hp hpa, rfl,
    countActive_eliminate pid (countActive t.players) t.players hnodup ⟨p, hp, hpid, hpa⟩,
    ?_, ?_⟩
  · decide
  · decide

/-- Witness for C5 on a concrete four-player roster. -/
theorem eliminate_spec_witness :
    (∃ p ∈ c5Tournament.players, p.id = 1 ∧ p.active = true) ∧
    (c5Tournament.players.map Player.id).Nodup ∧
    1 ≤ countActive c5Tournament.players ∧
    countActive (eliminatePlayer c5Tournament 1).players
      = countActive c5Tournament.players - 1 := by
  refine ⟨by decide, by decide, ?_, ?_⟩
  · exact (eliminate_spec c5Tournament 1 (by decide) (by decide)).1
  · exact (eliminate_spec c5Tournament 1 (by decide) (by decide)).2.2.1

/-! ### C8: algebraic properties of the prize pool -/

lemma sum_net_linear (ps : List Player) (av ev fee b : Rat) :
    (ps.map fun p => ((p.actions : Rat) * b + (p.addons : Rat) * av
        + (if p.hasExtraChip then ev else 0)) * (1 - fee / 100)).sum
      = ((ps.map fun p => (p.actions : Rat)).sum * (1 - fee / 100)) * b
        + (ps.map fun p => ((p.addons : Rat) * av
            + (if p.hasExtraChip then ev else 0)) * (1 - fee / 100)).sum := by
  induction ps with
  | nil => simp
  | cons p ps ih =>
    simp only [List.map_cons, List.sum_cons, ih]
    ring

/-- C8: the total prize pool is invariant under permutation of the players
list and, with every other input held fixed, is a linear (affine) function
of `buyInValue`. -/
theorem prizePool_algebraic :
    (∀ (t : Tournament) (ps' : List Player), t.players.Perm ps' →
      totalPrizePool { t with players := ps' } = totalPrizePool t) ∧
    (∀ t : Tournament, ∃ A C : Rat, ∀ b : Rat,
      totalPrizePool { t with buyInValue := b } = A * b + C) := by
  constructor
  · intro t ps' hperm
    rw [totalPrizePool_eq_sum, totalPrizePool_eq_sum]
    exact (hperm.map (netContribution t)).sum_eq.symm
  · intro t
    refine ⟨(t.players.map fun p => (p.actions : Rat)).sum * (1 - t.adminFeePercent / 100),
      (t.players.map fun p => ((p.addons : Rat) * t.addonValue
        + (if p.hasExtraChip then t.extraChipValue else 0))
          * (1 - t.adminFeePercent / 100)).sum, ?_⟩
    intro b
    rw [totalPrizePool_eq_sum]
    exact sum_net_linear t.players t.addonValue t.extraChipValue t.adminFeePercent b

def c8PlayerOne : Player :=
  { id := 1, name := "P1", actions := 1, rebuys := 0, addons := 2, chips := 0,
    position := none, prize := 0, active := true, hasTimeChip := false, hasExtraChip := true }

def c8PlayerTwo : Player :=
  { id := 2, name := "P2", actions := 3, rebuys := 2, addons := 0, chips := 0,
    position := none, prize := 0, active := false, hasTimeChip := false, hasExtraChip := false }

def c8Tournament : Tournament :=
  { createTournament "tr_c8" "C8" with players := [c8PlayerOne, c8PlayerTwo] }

/-- Witness for C8: swapping the two players of a concrete roster leaves the
pool unchanged. -/
theorem prizePool_algebraic_witness :
    c8Tournament.players.Perm [c8PlayerTwo, c8PlayerOne] ∧
    totalPrizePool { c8Tournament with players := [c8PlayerTwo, c8PlayerOne] }
      = totalPrizePool c8Tournament :=
  ⟨by decide, prizePool_algebraic.1 c8Tournament [c8PlayerTwo, c8PlayerOne] (by decide)⟩

/-! ### C2: the reachable-state invariant -/

lemma tickStep_idle {t : Tournament} (hrun : ¬t.isRunning = true) : tickStep t = t := by
  unfold tickStep
  rw [if_neg (fun hc => hrun hc.1), if_neg (fun hc => hrun hc.1)]

lemma clockInv_tickStep {t : Tournament} (h : ClockInv t) : ClockInv (tickStep t) := by
  obtain ⟨hlen, hidx0, hidxlt, htl, hdur⟩ := h
  have hL : (1 : Int) ≤ (t.blinds.length : Int) := by exact_mod_cast hlen
  by_cases hrun : t.isRunning = true
  · by_cases hpos : 0 < t.timeLeft
    · rw [tickStep_run_pos hrun hpos]
      refine ⟨hlen, hidx0, hidxlt, ?_, hdur⟩
      show 0 ≤ t.timeLeft - 1
      omega
    · have hz : t.timeLeft = 0 := by omega
      rw [tickStep_run_zero hrun hz]
      refine ⟨hlen, ?_, ?_, ?_, hdur⟩
      · show 0 ≤ clamp (t.currentLevelIndex + 1) 0 ((t.blinds.length : Int) - 1)
        unfold clamp
        omega
      · show clamp (t.currentLevelIndex + 1) 0 ((t.blinds.length : Int) - 1)
            < (t.blinds.length : Int)
        unfold clamp
        omega
      · show 0 ≤ t.levelDuration * 60
        omega
  · rw [tickStep_idle hrun]
    exact ⟨hlen, hidx0, hidxlt, htl, hdur⟩

lemma clockInv_applyOp {t : Tournament} (op : Op) (hop : op.dropsBlind = false)
    (h : ClockInv t) : ClockInv (applyOp t op) := by
  obtain ⟨hlen, hidx0, hidxlt, htl, hdur⟩ := h
  have hL : (1 : Int) ≤ (t.blinds.length : Int) := by exact_mod_cast hlen
  cases op with
  | tick => exact clockInv_tickStep ⟨hlen, hidx0, hidxlt, htl, hdur⟩
  | toggle => exact ⟨hlen, hidx0, hidxlt, htl, hdur⟩
  | reset =>
    refine ⟨hlen, ?_, ?_, ?_, hdur⟩
    · show (0 : Int) ≤ 0
      omega
    · show (0 : Int) < (t.blinds.length : Int)
      omega
    · show 0 ≤ t.levelDuration * 60
      omega
  | jump d =>
    refine ⟨hlen, ?_, ?_, ?_, hdur⟩
    · show 0 ≤ clamp (t.currentLevelIndex + d) 0 ((t.blinds.length : Int) - 1)
      unfold clamp
      omega
    · show clamp (t.currentLevelIndex + d) 0 ((t.blinds.length : Int) - 1)
          < (t.blinds.length : Int)
      unfold clamp
      omega
    · show 0 ≤ t.levelDuration * 60
      omega
  | enroll pid name =>
    show ClockInv (addPlayer t pid name)
    unfold addPlayer
    split
    · exact ⟨hlen, hidx0, hidxlt, htl, hdur⟩
    · exact ⟨hlen, hidx0, hidxlt, htl, hdur⟩
  | rebuy pid => exact ⟨hlen, hidx0, hidxlt, htl, hdur⟩
  | addon pid => exact ⟨hlen, hidx0, hidxlt, htl, hdur⟩
  | extraChip pid => exact ⟨hlen, hidx0, hidxlt, htl, hdur⟩
  | eliminate pid => exact ⟨hlen, hidx0, hidxlt, htl, hdur⟩
  | removeP pid => exact ⟨hlen, hidx0, hidxlt, htl, hdur⟩
  | chips pid c => exact ⟨hlen, hidx0, hidxlt, htl, hdur⟩
  | addLevel =>
    have hcast : ((addBlindLevel t).blinds.length : Int) = (t.blinds.length : Int) + 1 := by
      unfold addBlindLevel
      simp
    have hlen2 : 1 ≤ (addBlindLevel t).blinds.length := by
      unfold addBlindLevel
      simp
    refine ⟨hlen2, hidx0, ?_, htl, hdur⟩
    show t.currentLevelIndex < ((addBlindLevel t).blinds.length : Int)
    omega
  | addBreakLevel =>
    have hcast : ((addBreak t).blinds.length : Int) = (t.blinds.length : Int) + 1 := by
      unfold addBreak
      simp
    have hlen2 : 1 ≤ (addBreak t).blinds.length := by
      unfold addBreak
      simp
    refine ⟨hlen2, hidx0, ?_, htl, hdur⟩
    show t.currentLevelIndex < ((addBreak t).blinds.length : Int)
    omega
  | editBlind idx f =>
    have hcast : ((updateBlind t idx f).blinds.length : Int) = (t.blinds.length : Int) := by
      unfold updateBlind
      simp
    have hlen2 : 1 ≤ (updateBlind t idx f).blinds.length := by
      unfold updateBlind
      simpa using hlen
    refine ⟨hlen2, hidx0, ?_, htl, hdur⟩
    show t.currentLevelIndex < ((updateBlind t idx f).blinds.length : Int)
    omega
  | dropBlind idx => exact absurd hop (by simp [Op.dropsBlind])

lemma clockInv_applyOps {t : Tournament} (ops : List Op)
    (hops : ∀ op ∈ ops, op.dropsBlind = false) (h : ClockInv t) :
    ClockInv (applyOps t ops) := by
  induction ops generalizing t with
  | nil => exact h
  | cons op ops ih =>
    have hstep := clockInv_applyOp op (hops op (List.mem_cons_self op ops)) h
    exact ih (fun o ho => hops o (List.mem_cons.mpr (Or.inr ho))) hstep

lemma weakClockInv_tickStep {t : Tournament} (h : WeakClockInv t) :
    WeakClockInv (tickStep t) := by
  obtain ⟨hidx0, htl, hdur⟩ := h
  by_cases hrun : t.isRunning = true
  · by_cases hpos : 0 < t.timeLeft
    · rw [tickStep_run_pos hrun hpos]
      refine ⟨hidx0, ?_, hdur⟩
      show 0 ≤ t.timeLeft - 1
      omega
    · have hz : t.timeLeft = 0 := by omega
      rw [tickStep_run_zero hrun hz]
      refine ⟨?_, ?_, hdur⟩
      · show 0 ≤ clamp (t.currentLevelIndex + 1) 0 ((t.blinds.length : Int) - 1)
        unfold clamp
        omega
      · show 0 ≤ t.levelDuration * 60
        omega
  · rw [tickStep_idle hrun]
    exact ⟨hidx0, htl, hdur⟩

lemma weakClockInv_applyOp {t : Tournament} (op : Op) (h : WeakClockInv t) :
    WeakClockInv (applyOp t op) := by
  obtain ⟨hidx0, htl, hdur⟩ := h
  cases op with
  | tick => exact weakClockInv_tickStep ⟨hidx0, htl, hdur⟩
  | toggle => exact ⟨hidx0, htl, hdur⟩
  | reset =>
    refine ⟨?_, ?_, hdur⟩
    · show (0 : Int) ≤ 0
      omega
    · show 0 ≤ t.levelDuration * 60
      omega
  | jump d =>
    refine ⟨?_, ?_, hdur⟩
    · show 0 ≤ clamp (t.currentLevelIndex + d) 0 ((t.blinds.length : Int) - 1)
      unfold clamp
      omega
    · show 0 ≤ t.levelDuration * 60
      omega
  | enroll pid name =>
    show WeakClockInv (addPlayer t pid name)
    unfold addPlayer
    split
    · exact ⟨hidx0, htl, hdur⟩
    · exact ⟨hidx0, htl, hdur⟩
  | rebuy pid => exact ⟨hidx0, htl, hdur⟩
  | addon pid => exact ⟨hidx0, htl, hdur⟩
  | extraChip pid => exact ⟨hidx0, htl, hdur⟩
  | eliminate pid => exact ⟨hidx0, htl, hdur⟩
  | removeP pid => exact ⟨hidx0, htl, hdur⟩
  | chips pid c => exact ⟨hidx0, htl, hdur⟩
  | addLevel => exact ⟨hidx0, htl, hdur⟩
  | addBreakLevel => exact ⟨hidx0, htl, hdur⟩
  | editBlind idx f => exact ⟨hidx0, htl, hdur⟩
  | dropBlind idx => exact ⟨hidx0, htl, hdur⟩

lemma weakClockInv_applyOps {t : Tournament} (ops : List Op) (h : WeakClockInv t) :
    WeakClockInv (applyOps t ops) := by
  induction ops generalizing t with
  | nil => exact h
  | cons op ops ih => exact ih (weakClockInv_applyOp op h)

lemma clockInv_create (id name : String) : ClockInv (createTournament id name) := by
  refine ⟨?_, ?_, ?_, ?_, ?_⟩ <;> simp [createTournament, defaultBlindStructure]

/-- C2 (amended): starting from tournament creation, every state reachable
through ticks, start/pause, reset, level jumps, player-ledger mutations and
blind-schedule additions or in-place edits — i.e. any operation sequence that
never removes a blind level — satisfies `0 ≤ currentLevelIndex < blinds.length`
and `timeLeft ≥ 0`; under arbitrary sequences, including blind-level removal,
`currentLevelIndex ≥ 0` and `timeLeft ≥ 0` still hold. -/
theorem clockInv_reachable (id name : String) (ops : List Op)
    (hops : ∀ op ∈ ops, op.dropsBlind = false) :
    ClockInv (applyOps (createTournament id name) ops) ∧
    (∀ anyOps : List Op,
      0 ≤ (applyOps (createTournament id name) anyOps).currentLevelIndex ∧
      0 ≤ (applyOps (createTournament id name) anyOps).timeLeft) := by
  constructor
  · exact clockInv_applyOps ops hops (clockInv_create id name)
  · intro anyOps
    have hbase : WeakClockInv (createTournament id name) :=
      ⟨by show (0 : Int) ≤ 0; omega, by show (0 : Int) ≤ 10 * 60; omega,
       by show (0 : Int) ≤ 10; omega⟩
    have h := weakClockInv_applyOps anyOps hbase
    exact ⟨h.1, h.2.1⟩

/-- Witness for C2 (amended) on a concrete removal-free operation sequence. -/
theorem clockInv_reachable_witness :
    (∀ op ∈ ([.tick, .toggle, .tick, .jump 1, .enroll 7 "Ana", .reset] : List Op),
      op.dropsBlind = false) ∧
    ClockInv (applyOps (createTournament "tr_w2" "W2")
      [.tick, .toggle, .tick, .jump 1, .enroll 7 "Ana", .reset]) :=
  ⟨by decide,
   (clockInv_reachable "tr_w2" "W2"
      [.tick, .toggle, .tick, .jump 1, .enroll 7 "Ana", .reset] (by decide)).1⟩

def c2Breaking : Tournament :=
  applyOps (createTournament "tr_c2" "C2")
    [.jump 1, .jump 1, .jump 1, .jump 1, .dropBlind 0]

/-- C2 counterexample: the state reached from creation by jumping to the last
level and then removing one blind level has `currentLevelIndex = 4` but only
4 blind levels, violating `currentLevelIndex < blinds.length`. -/
theorem clockInv_counterexample :
    c2Breaking.currentLevelIndex = 4 ∧ c2Breaking.blinds.length = 4 ∧
    ¬(c2Breaking.currentLevelIndex < (c2Breaking.blinds.length : Int)) := by
  refine ⟨by decide, by decide, by decide⟩

/-! ### C9: the 600-tick scenario -/

def c9Schedule : List BlindLevel :=
  [ { level := 1, smallBlind := 25, bigBlind := 50, ante := 0 },
    { level := 2, smallBlind := 50, bigBlind := 100, ante := 0, isBreak := false } ]

def c9Start : Tournament :=
  { createTournament "tr_c9" "C9" with
    blinds := c9Schedule
    levelDuration := 10
    currentLevelIndex := 0
    timeLeft := 600
    isRunning := true }

lemma tickStep_iterate_run (k : Nat) :
    ∀ t : Tournament, t.isRunning = true → (k : Int) ≤ t.timeLeft →
      tickStep^[k] t = { t with timeLeft := t.timeLeft - (k : Int) } := by
  induction k with
  | zero =>
    intro t _ _
    rw [Function.iterate_zero_apply]
    rw [show t.timeLeft - ((0 : Nat) : Int) = t.timeLeft by omega]
  | succ k ih =>
    intro t hrun hk
    have hpos : 0 < t.timeLeft := by omega
    rw [Function.iterate_succ_apply, tickStep_run_pos hrun hpos,
      ih { t with timeLeft := t.timeLeft - 1 } hrun (by show (k : Int) ≤ t.timeLeft - 1; omega)]
    rw [show t.timeLeft - 1 - (k : Int) = t.timeLeft - ((k + 1 : Nat) : Int) by omega]

lemma c9_after_600 : tickStep^[600] c9Start = { c9Start with timeLeft := 0 } := by
  rw [tickStep_iterate_run 600 c9Start rfl (by norm_num [c9Start])]
  rw [show c9Start.timeLeft - ((600 : Nat) : Int) = 0 by norm_num [c9Start]]

/-- C9 counterexample: after exactly 600 ticks the scenario state still has
`currentLevelIndex = 0`, `timeLeft = 0` and `isRunning = true` — not the
claimed `currentLevelIndex = 1`, `timeLeft = 600`, `isRunning = false`. -/
theorem c9_counterexample :
    ¬((tickStep^[600] c9Start).currentLevelIndex = 1 ∧
      (tickStep^[600] c9Start).timeLeft = 600 ∧
      (tickStep^[600] c9Start).isRunning = false) := by
  rw [c9_after_600]
  decide

/-- C9 (amended): after exactly 600 ticks the scenario state has
`currentLevelIndex = 0`, `timeLeft = 0` and is still Running; the 601st tick
then advances to `currentLevelIndex = 1`, resets `timeLeft = 600`, and sets
`isRunning = false` (last level reached). -/
theorem c9_amended :
    (tickStep^[600] c9Start).currentLevelIndex = 0 ∧
    (tickStep^[600] c9Start).timeLeft = 0 ∧
    (tickStep^[600] c9Start).isRunning = true ∧
    (tickStep^[601] c9Start).currentLevelIndex = 1 ∧
    (tickStep^[601] c9Start).timeLeft = 600 ∧
    (tickStep^[601] c9Start).isRunning = false := by
  have h601 : tickStep^[601] c9Start = tickStep (tickStep^[600] c9Start) :=
    Function.iterate_succ_apply' tickStep 600 c9Start
  rw [h601, c9_after_600]
  refine ⟨by decide, by decide, by decide, by decide, by decide, by decide⟩

/-! ### C10: removing a tournament from the store -/

/-- C10: `removeTournament` filters out the tournament with the given id,
keeps every other tournament (in order), and when the removed tournament was
the active selection the new selection is the id of the FIRST element of the
pre-removal collection — so removing the active tournament when it sits first
leaves the selection pointing at the removed, no-longer-existing id. -/
theorem removeTournament_spec (st : TournamentsState) (i : String) :
    ((removeTournament st i).tournaments = st.tournaments.filter fun t => t.id ≠ i) ∧
    (∀ u ∈ (removeTournament st i).tournaments, u.id ≠ i) ∧
    ((removeTournament st i).tournaments.Sublist st.tournaments) ∧
    (∀ u ∈ st.tournaments, u.id ≠ i → u ∈ (removeTournament st i).tournaments) ∧
    (st.activeTournamentId = some i →
      (removeTournament st i).activeTournamentId = st.tournaments.head?.map Tournament.id) ∧
    (st.activeTournamentId ≠ some i →
      (removeTournament st i).activeTournamentId = st.activeTournamentId) ∧
    (∀ t₀ rest, st.tournaments = t₀ :: rest → t₀.id = i →
      st.activeTournamentId = some i →
      (removeTournament st i).activeTournamentId = some i) := by
  refine ⟨rfl, ?_, ?_, ?_, ?_, ?_, ?_⟩
  · intro u hu
    have := List.of_mem_filter hu
    simpa using this
  · exact List.filter_sublist st.tournaments
  · intro u hu hne
    exact List.mem_filter.mpr ⟨hu, by simpa using hne⟩
  · intro h
    simp [removeTournament, h]
  · intro h
    simp [removeTournament, h]
  · intro t₀ rest hlist hid hact
    simp [removeTournament, hact, hlist, hid]

def c10StoreA : Tournament := createTournament "tr_A" "A"

def c10StoreB : Tournament := createTournament "tr_B" "B"

def c10Store : TournamentsState :=
  { tournaments := [c10StoreA, c10StoreB], activeTournamentId := some "tr_A" }

/-- Witness for C10: removing the first, active tournament leaves the active
selection pointing at the removed id while no surviving tournament has it. -/
theorem removeTournament_spec_witness :
    (removeTournament c10Store "tr_A").activeTournamentId = some "tr_A" ∧
    (∀ u ∈ (removeTournament c10Store "tr_A").tournaments, u.id ≠ "tr_A") :=
  ⟨(removeTournament_spec c10Store "tr_A").2.2.2.2.2.2 c10StoreA [c10StoreB] rfl rfl rfl,
   (removeTournament_spec c10Store "tr_A").2.1⟩

/-! ### C4: the ranking engine -/

lemma sqrt_hundred : Real.sqrt 100 = 10 := by
  rw [show (100 : ℝ) = 10 ^ 2 by norm_num, Real.sqrt_sq (by norm_num : (0:ℝ) ≤ 10)]

lemma sqrt_fifty_lt_ten : Real.sqrt 50 < 10 := by
  have h := Real.sqrt_lt_sqrt (by norm_num : (0:ℝ) ≤ 50) (by norm_num : (50:ℝ) < 100)
  rwa [sqrt_hundred] at h

lemma calcRank_one_one : calculateRanking 1 1 1 = 10 := by
  unfold calculateRanking
  rw [if_neg (by omega : ¬((1:Int) ≤ 0 ∨ (1:Int) ≤ 0))]
  have h1 : (((1:Int):ℝ) / ((1:Int):ℝ)) * 100 = 100 := by push_cast; norm_num
  rw [h1, show (0.5:ℝ) = 1/2 by norm_num, ← Real.sqrt_eq_rpow, sqrt_hundred]
  push_cast
  norm_num

lemma calcRank_one_two : calculateRanking 1 2 1 = Real.sqrt 50 := by
  unfold calculateRanking
  rw [if_neg (by omega : ¬((2:Int) ≤ 0 ∨ (1:Int) ≤ 0))]
  have h1 : (((1:Int):ℝ) / ((2:Int):ℝ)) * 100 = 50 := by push_cast; norm_num
  rw [h1, show (0.5:ℝ) = 1/2 by norm_num, ← Real.sqrt_eq_rpow]
  push_cast
  norm_num

lemma withScores_pairwise (t : Tournament) :
    (withScores t).Pairwise fun a b => b.score ≤ a.score := by
  have htrans : ∀ a b c : ScoredPlayer,
      decide (b.score ≤ a.score) = true → decide (c.score ≤ b.score) = true →
      decide (c.score ≤ a.score) = true := by
    intro a b c hab hbc
    rw [decide_eq_true_eq] at hab hbc ⊢
    exact le_trans hbc hab
  have htotal : ∀ a b : ScoredPlayer,
      (decide (b.score ≤ a.score) || decide (a.score ≤ b.score)) = true := by
    intro a b
    rw [Bool.or_eq_true, decide_eq_true_eq, decide_eq_true_eq]
    exact le_total b.score a.score
  have h := List.sorted_mergeSort htrans htotal (withScoresPre t)
  exact h.imp fun hab => of_decide_eq_true hab

lemma perm_pair_cases {α : Type} {a b : α} {l : List α} (h : l.Perm [a, b]) :
    l = [a, b] ∨ l = [b, a] := by
  have hlen : l.length = 2 := by simpa using h.length_eq
  obtain ⟨x, y, rfl⟩ : ∃ x y, l = [x, y] := by
    cases l with
    | nil => simp at hlen
    | cons x l2 =>
      cases l2 with
      | nil => simp at hlen
      | cons y l3 =>
        cases l3 with
        | nil => exact ⟨x, y, rfl⟩
        | cons z l4 => simp at hlen
  have hx : x ∈ [a, b] := h.subset (List.mem_cons_self x [y])
  rcases List.mem_cons.mp hx with rfl | hx2
  · have h3 : [y].Perm [b] := h.cons_inv
    have hy : y = b := by simpa using List.perm_singleton.mp h3
    subst hy
    exact Or.inl rfl
  · have hxb : x = b := by simpa using hx2
    subst hxb
    have hswap : ([a, x] : List α).Perm [x, a] := List.Perm.swap x a []
    have h3 : [y].Perm [a] := (h.trans hswap).cons_inv
    have hy : y = a := by simpa using List.perm_singleton.mp h3
    subst hy
    exact Or.inr rfl

def c4X : Player :=
  { id := 1, name := "X", actions := 1, rebuys := 0, addons := 0, chips := 0,
    position := some 1, prize := 0, active := false, hasTimeChip := false, hasExtraChip := false }

def c4Y : Player :=
  { id := 2, name := "Y", actions := 1, rebuys := 0, addons := 0, chips := 0,
    position := some 2, prize := 0, active := false, hasTimeChip := false, hasExtraChip := false }

def c4Tournament : Tournament :=
  { createTournament "tr_c4" "C4" with players := [c4X, c4Y] }

noncomputable def c4ScoredX : ScoredPlayer :=
  { player := c4X, score := calculateRanking 1 1 1, finalPosition := 1 }

noncomputable def c4ScoredY : ScoredPlayer :=
  { player := c4Y, score := calculateRanking 1 2 1, finalPosition := 2 }

lemma c4_pre : withScoresPre c4Tournament = [c4ScoredX, c4ScoredY] := rfl

lemma c4_sorted_concrete : withScores c4Tournament = [c4ScoredX, c4ScoredY] := by
  have hperm : (withScores c4Tournament).Perm [c4ScoredX, c4ScoredY] := by
    have h := List.mergeSort_perm (withScoresPre c4Tournament)
      (fun a b => decide (b.score ≤ a.score))
    rw [c4_pre] at h
    exact h
  rcases perm_pair_cases hperm with heq | heq
  · exact heq
  · exfalso
    have hsorted := withScores_pairwise c4Tournament
    rw [heq] at hsorted
    have hle : c4ScoredX.score ≤ c4ScoredY.score :=
      (List.pairwise_cons.mp hsorted).1 c4ScoredX (List.mem_cons_self _ _)
    have hxs : c4ScoredX.score = 10 := calcRank_one_one
    have hys : c4ScoredY.score = Real.sqrt 50 := calcRank_one_two
    rw [hxs, hys] at hle
    exact absurd hle (not_le.mpr sqrt_fifty_lt_ten)

/-- C4: the ranking score is 0 whenever entries or the effective position is
non-positive, otherwise it is `sqrt((entries/effectivePosition)*100) * stageWeight`
where the effective position is the recorded elimination position when set and
the total player count otherwise; the produced ranking is ordered by
descending score, and, for two players with one entry and stage weight 1 at
positions 1 and 2, the scores are 10 and `sqrt 50` with the position-1 player
ranked first. -/
theorem ranking_spec :
    (∀ (a p : Int) (w : Rat), a ≤ 0 ∨ p ≤ 0 → calculateRanking a p w = 0) ∧
    (∀ (a p : Int) (w : Rat), 0 < a → 0 < p →
      calculateRanking a p w = Real.sqrt (((a : ℝ) / (p : ℝ)) * 100) * (w : ℝ)) ∧
    (∀ t : Tournament, ∀ s ∈ withScores t, ∃ p ∈ t.players,
      s.player = p ∧ s.finalPosition = p.position.getD (t.players.length : Int) ∧
      s.score = calculateRanking p.actions
        (p.position.getD (t.players.length : Int)) t.stageWeight) ∧
    (∀ t : Tournament, (withScores t).Pairwise fun a b => b.score ≤ a.score) ∧
    calculateRanking 1 1 1 = 10 ∧
    calculateRanking 1 2 1 = Real.sqrt 50 ∧
    withScores c4Tournament = [c4ScoredX, c4ScoredY] := by
  refine ⟨?_, ?_, ?_, withScores_pairwise, calcRank_one_one, calcRank_one_two,
    c4_sorted_concrete⟩
  · intro a p w h
    unfold calculateRanking
    rw [if_pos (Or.symm h)]
  · intro a p w ha hp
    unfold calculateRanking
    rw [if_neg (by omega : ¬(p ≤ 0 ∨ a ≤ 0)), show (0.5:ℝ) = 1/2 by norm_num,
      Real.sqrt_eq_rpow]
  · intro t s hs
    have hs2 : s ∈ withScoresPre t := List.mem_mergeSort.mp hs
    obtain ⟨p, hp, hfp⟩ := List.mem_map.mp hs2
    refine ⟨p, hp, ?_, ?_, ?_⟩
    · rw [← hfp]
    · rw [← hfp]
    · rw [← hfp]

/-- Witness for C4: the zero guard and the closed square-root form at concrete
inputs. -/
theorem ranking_spec_witness :
    ((0 : Int) ≤ 0 ∨ (5 : Int) ≤ 0) ∧ calculateRanking 0 5 1 = 0 ∧
    calculateRanking 2 1 1
      = Real.sqrt ((((2:Int) : ℝ) / ((1:Int) : ℝ)) * 100) * ((1 : Rat) : ℝ) :=
  ⟨Or.inl le_rfl, ranking_spec.1 0 5 1 (Or.inl le_rfl),
   ranking_spec.2.1 2 1 1 (by omega) (by omega)⟩

end PokerTM
